import Mathlib

/-!
A verification development of the BDLI voice-line container codec and its
character-stream text renderer (`bdli.py`).  Byte blobs are modelled as
`List Nat` (each element one byte), machine integers as `Nat` with explicit
`2 ^ 32` / `2 ^ 16` bounds, the `f32` pitch field as its 32-bit pattern
(little-endian, as stored), and Python `assert`-guarded decoding as
`Option`-returning functions.  The process-wide `hashes` dict becomes an
explicit `Registry` argument.
-/

namespace BdliSpec

/-! ## Byte-level primitives -/

/-- Byte `i` of a blob (reads are always guarded by length checks mirroring
the Python `assert len(blob) >= ...`; out-of-range default is irrelevant). -/
def byteAt (blob : List Nat) (i : Nat) : Nat := blob.getD i 0

/-- Little-endian `u16` read (`struct.unpack_from('<H', ...)`). -/
def readU16 (blob : List Nat) (i : Nat) : Nat :=
  byteAt blob i + 2 ^ 8 * byteAt blob (i + 1)

/-- Little-endian `u32` read (`struct.unpack_from('<I', ...)`). -/
def readU32 (blob : List Nat) (i : Nat) : Nat :=
  byteAt blob i + 2 ^ 8 * byteAt blob (i + 1) + 2 ^ 16 * byteAt blob (i + 2) +
    2 ^ 24 * byteAt blob (i + 3)

/-- Little-endian `u16` write (`struct.pack('<H', n)` for `n < 2 ^ 16`). -/
def u16le (n : Nat) : List Nat := [n % 2 ^ 8, n / 2 ^ 8 % 2 ^ 8]

/-- Little-endian `u32` write (`struct.pack('<I', n)` for `n < 2 ^ 32`). -/
def u32le (n : Nat) : List Nat :=
  [n % 2 ^ 8, n / 2 ^ 8 % 2 ^ 8, n / 2 ^ 16 % 2 ^ 8, n / 2 ^ 24 % 2 ^ 8]

/-- The 4-byte window `blob[off : off + 4]` compared against magic tags. -/
def magicAt (blob : List Nat) (off : Nat) : List Nat :=
  [byteAt blob off, byteAt blob (off + 1), byteAt blob (off + 2), byteAt blob (off + 3)]

/-! ## IEEE-754 binary32 comparison semantics

The decoded `pitch` is the double obtained from the stored f32 bits; Python's
`==` / `<` / `>` on those doubles coincide with IEEE-754 comparison of the f32
values, which on bit patterns is sign-magnitude order: NaN compares false with
everything, `+0.0 == -0.0`, and otherwise same-sign values order by magnitude
bits. -/

/-- Exponent field of an f32 bit pattern. -/
def f32Exp (b : Nat) : Nat := b / 2 ^ 23 % 2 ^ 8

/-- Mantissa field of an f32 bit pattern. -/
def f32Man (b : Nat) : Nat := b % 2 ^ 23

/-- Sign bit of an f32 bit pattern. -/
def f32Sign (b : Nat) : Nat := b / 2 ^ 31 % 2

/-- Magnitude bits (sign cleared) of an f32 bit pattern. -/
def f32Mag (b : Nat) : Nat := b % 2 ^ 31

/-- NaN: maximal exponent with nonzero mantissa. -/
def f32IsNan (b : Nat) : Bool := f32Exp b = 255 && f32Man b ≠ 0

/-- Python `x == y` on the floats with bit patterns `a`, `b`. -/
def fEq (a b : Nat) : Bool :=
  if f32IsNan a || f32IsNan b then false
  else f32Mag a = f32Mag b && (f32Sign a = f32Sign b || f32Mag a = 0)

/-- Python `x < y` on the floats with bit patterns `a`, `b`. -/
def fLt (a b : Nat) : Bool :=
  if f32IsNan a || f32IsNan b then false
  else if f32Sign a = 1 then
    if f32Sign b = 1 then f32Mag b < f32Mag a
    else f32Mag a ≠ 0 || f32Mag b ≠ 0
  else
    if f32Sign b = 1 then false else f32Mag a < f32Mag b

/-- Bit pattern of `1.0f` (the renderer's initial running pitch). -/
def f32one : Nat := 0x3F800000

/-- Bit pattern of `2.0f`. -/
def f32two : Nat := 0x40000000

/-- Bit pattern of `0.0f` (the "no pitch instruction" sentinel). -/
def f32zero : Nat := 0x00000000

/-! ## Python text formatting helpers -/

/-- Hexadecimal digit in Python's uppercase `X` alphabet. -/
def hexDigitU (n : Nat) : Char :=
  if n < 10 then Char.ofNat (0x30 + n) else Char.ofNat (0x37 + n)

/-- Most-significant-first uppercase hex digits of `n`; `fuel` only bounds the
recursion depth (`n` itself always suffices since `n / 16 < n`). -/
def hexCharsAux (fuel : Nat) (n : Nat) : List Char :=
  match fuel with
  | 0 => []
  | f + 1 => if n = 0 then [] else hexCharsAux f (n / 16) ++ [hexDigitU (n % 16)]

/-- Python `format(n, 'X')`: uppercase hexadecimal, no padding, `0` for zero. -/
def hexStr (n : Nat) : String :=
  if n = 0 then "0" else String.mk (hexCharsAux n n)

/-- Python `format(n, '0wX')`: uppercase hexadecimal zero-padded on the left to
width `w` (wider numbers are not truncated). -/
def pyHexPad (w n : Nat) : String :=
  String.mk (List.replicate (w - (hexStr n).length) '0') ++ hexStr n

/-- Python `str()` of the double decoded from f32 bits `b` (the renderer's
`f-string` interpolation of `c.pitch`).  Exact for NaN, the infinities, and
finite values of integral magnitude below `10 ^ 16`, which Python prints as
`n.0` (including `0.0` / `-0.0`); remaining finite doubles use Python's
shortest round-trip decimal, which no theorem below reaches, and are mapped to
a placeholder. -/
def pyFloatRepr (b : Nat) : String :=
  if f32Exp b = 255 then
    if f32Man b = 0 then (if f32Sign b = 1 then "-inf" else "inf") else "nan"
  else
    let num := if f32Exp b = 0 then f32Man b else 2 ^ 23 + f32Man b
    let ex := if f32Exp b = 0 then 1 else f32Exp b
    let intPart : Option Nat :=
      if 150 ≤ ex then some (num * 2 ^ (ex - 150))
      else if num % 2 ^ (150 - ex) = 0 then some (num / 2 ^ (150 - ex)) else none
    match intPart with
    | some n =>
        if n < 10 ^ 16 then (if f32Sign b = 1 then "-" else "") ++ toString n ++ ".0"
        else "<wide-float>"
    | none => "<wide-float>"

/-! ## Label registry (`hashes` dict + `LBLILabel`) -/

/-- The process-wide `hashes` dict, made an explicit map argument. -/
def Registry : Type := Nat → Option String

/-- `hashes[h] = name` (dict assignment: last write wins). -/
def registerName (reg : Registry) (h : Nat) (name : String) : Registry :=
  fun x => if x = h then some name else reg x

/-- The empty registry (no label ever registered). -/
def emptyRegistry : Registry := fun _ => none

structure LBLILabel where
  hash : Nat
  name : Option String
deriving DecidableEq

/-- `LBLILabel.from_hash`: look the hash up in the registry; unknown hashes get
`name = None`. -/
def LBLILabel.from_hash (reg : Registry) (hash_ : Nat) : LBLILabel :=
  match reg hash_ with
  | some n => ⟨hash_, some n⟩
  | none => ⟨hash_, none⟩

/-- `LBLILabel.__str__`: `self.name if self.name else f-string _hash:08X`.
Python truthiness makes both `None` and the empty string fall through to the
hex form. -/
def LBLILabel.str (l : LBLILabel) : String :=
  match l.name with
  | some n => if n ≠ "" then n else "_" ++ pyHexPad 8 l.hash
  | none => "_" ++ pyHexPad 8 l.hash

/-! ## Character records (`LBLIChar`) -/

structure LBLIChar where
  value : Nat
  volume : Nat
  /-- f32 bit pattern of the pitch field, as stored on the wire. -/
  pitch : Nat
deriving DecidableEq

/-- `LBLIChar.SIZE = 0x14`. -/
def LBLIChar.SIZE : Nat := 0x14

/-- `LBLIChar.load`: asserts `len(blob) >= offset + 0x14`, unpacks
`<IIIfB` (so only bytes `offset .. offset + 16` are read), asserts the `u32`
at `offset + 8` and the byte at `offset + 16` are zero. -/
def LBLIChar.load (blob : List Nat) (offset : Nat) : Option LBLIChar :=
  if offset + LBLIChar.SIZE ≤ blob.length then
    if readU32 blob (offset + 8) = 0 ∧ byteAt blob (offset + 16) = 0 then
      some ⟨readU32 blob offset, readU32 blob (offset + 4), readU32 blob (offset + 12)⟩
    else none
  else none

/-- `LBLIChar.dump`: `struct.pack('<IIIfI', value, volume, 0, pitch, 0)`;
`none` models the `struct.error` on out-of-range fields.  Note the trailing
reserved field is written as a full zero `u32` although `load` reads back only
one byte of it. -/
def LBLIChar.dump (c : LBLIChar) : Option (List Nat) :=
  if c.value < 2 ^ 32 ∧ c.volume < 2 ^ 32 ∧ c.pitch < 2 ^ 32 then
    some (u32le c.value ++ u32le c.volume ++ u32le 0 ++ u32le c.pitch ++ u32le 0)
  else none

/-- `LBLIChar.get_char`: the value-to-glyph map of the renderer. -/
def LBLIChar.get_char (c : LBLIChar) : String :=
  if 0x01 ≤ c.value ∧ c.value ≤ 0x56 then String.singleton (Char.ofNat (0x3040 + c.value))
  else if 0x57 ≤ c.value ∧ c.value ≤ 0x60 then String.singleton (Char.ofNat (0x30 + c.value - 0x57))
  else if 0x61 ≤ c.value ∧ c.value ≤ 0x7a then String.singleton (Char.ofNat c.value)
  else if c.value = 0x9d then String.singleton (Char.ofNat 0x30fc)
  else if c.value = 0x9e then String.singleton (Char.ofNat 0x2026)
  else if c.value = 0x9f then "[Monology]"
  else if c.value = 0xa0 then String.singleton (Char.ofNat 0xff1f)
  else if c.value = 0xa1 then String.singleton (Char.ofNat 0xff01)
  else if c.value = 0xa2 then String.singleton (Char.ofNat 0x3001)
  else if c.value = 0xa3 then String.singleton (Char.ofNat 0x3002)
  else if c.value = 0xa4 then String.singleton (Char.ofNat 0x3000)
  else if c.value = 0xa5 then String.singleton (Char.ofNat 0x30fb)
  else if c.value = 0xa6 then "\n"
  else if c.value = 0xa7 then "\n\n"
  else if c.value = 0xda then ""
  else if c.value = 0xde then ""
  else if c.value = 0x10d then ""
  else "[" ++ pyHexPad 3 c.value ++ "]"

/-! ## Entries (`LBLI`) -/

structure LBLI where
  label : LBLILabel
  chars : List LBLIChar
deriving DecidableEq

/-- `LBLI.MAGIC = b'LBLI'`. -/
def LBLI.MAGIC : List Nat := [0x4c, 0x42, 0x4c, 0x49]

/-- `LBLI.SIZE = 0x10`. -/
def LBLI.SIZE : Nat := 0x10

/-- The `for i in range(char_count)` loop of `LBLI.load`: record `i` is read at
`base + LBLIChar.SIZE * i`, expressed here by advancing the base. -/
def loadChars (blob : List Nat) : Nat → Nat → Option (List LBLIChar)
  | _, 0 => some []
  | base, n + 1 => do
      let c ← LBLIChar.load blob base
      let cs ← loadChars blob (base + LBLIChar.SIZE) n
      pure (c :: cs)

/-- `LBLI.load`: asserts `len(blob) >= offset + 0x10`, checks the magic, reads
`char_count` at `offset + 4`, `char_offset` at `offset + 8` (relative to this
entry's own position) and `label_hash` at `offset + 12`, resolves the label,
and loads the records. -/
def LBLI.load (reg : Registry) (blob : List Nat) (offset : Nat) : Option LBLI :=
  if offset + LBLI.SIZE ≤ blob.length then
    if magicAt blob offset = LBLI.MAGIC then
      (loadChars blob (offset + readU32 blob (offset + 8)) (readU32 blob (offset + 4))).map
        (fun chars => ⟨LBLILabel.from_hash reg (readU32 blob (offset + 12)), chars⟩)
    else none
  else none

/-- `LBLI.dump`: magic, char count, the caller-supplied relative chars offset,
and the label hash; the records themselves are emitted by `BDLI.dump`. -/
def LBLI.dump (e : LBLI) (chars_offset : Nat) : Option (List Nat) :=
  if e.chars.length < 2 ^ 32 ∧ chars_offset < 2 ^ 32 ∧ e.label.hash < 2 ^ 32 then
    some (LBLI.MAGIC ++ u32le e.chars.length ++ u32le chars_offset ++ u32le e.label.hash)
  else none

/-! ## Containers (`BDLI`) -/

structure BDLI where
  lbli : List LBLI
deriving DecidableEq

/-- `BDLI.MAGIC = b'BDLI'`. -/
def BDLI.MAGIC : List Nat := [0x42, 0x44, 0x4c, 0x49]

/-- `BDLI.SIZE = 0x14`. -/
def BDLI.SIZE : Nat := 0x14

/-- The `for i in range(lbli_count)` loop of `BDLI.load`: entry `i` is read at
`base + LBLI.SIZE * i`, expressed here by advancing the base. -/
def loadEntries (reg : Registry) (blob : List Nat) : Nat → Nat → Option (List LBLI)
  | _, 0 => some []
  | base, n + 1 => do
      let e ← LBLI.load reg blob base
      let es ← loadEntries reg blob (base + LBLI.SIZE) n
      pure (e :: es)

/-- `BDLI.load`: asserts `len(blob) >= offset + 0x14`, checks magic,
`version == 2` (u16 at `offset + 4`) and the reserved u32 at `offset + 8`,
then decodes `lbli_count` (u16 at `offset + 6`) entries starting at
`offset + lbli_offset` (u32 at `offset + 12`).  The `char_offset` header field
(u32 at `offset + 16`) is unpacked but never used. -/
def BDLI.load (reg : Registry) (blob : List Nat) (offset : Nat) : Option BDLI :=
  if offset + BDLI.SIZE ≤ blob.length then
    if magicAt blob offset = BDLI.MAGIC ∧ readU16 blob (offset + 4) = 2 ∧
        readU32 blob (offset + 8) = 0 then
      (loadEntries reg blob (offset + readU32 blob (offset + 12))
        (readU16 blob (offset + 6))).map BDLI.mk
    else none
  else none

/-- The per-entry body of `BDLI.dump`'s loop: each record of each entry is
packed in order into the trailing pool. -/
def dumpChars : List LBLIChar → Option (List Nat)
  | [] => some []
  | c :: cs => do
      let b ← c.dump
      let bs ← dumpChars cs
      pure (b ++ bs)

/-- The loop of `BDLI.dump`, threading the running `lbli_offset` /
`char_offset` cursors; each entry stores `char_offset - lbli_offset` (the
cursors keep `lbli_offset ≤ char_offset`, so `Nat` subtraction is exact) and
advances the pool cursor by `0x14 * len(chars)`.  Returns the entry-table bytes
and the pool bytes. -/
def dumpEntries : List LBLI → Nat → Nat → Option (List Nat × List Nat)
  | [], _, _ => some ([], [])
  | e :: rest, lbli_offset, char_offset => do
      let eb ← e.dump (char_offset - lbli_offset)
      let cb ← dumpChars e.chars
      let (ebs, cbs) ← dumpEntries rest (lbli_offset + LBLI.SIZE)
        (char_offset + e.chars.length * LBLIChar.SIZE)
      pure (eb ++ ebs, cb ++ cbs)

/-- `BDLI.dump`: header (`magic`, `version = 2`, entry count, reserved `0`,
`lbli_offset = 0x14`, initial `char_offset = 0x14 + 0x10 * n`), then the entry
table, then the character pool, with no padding. -/
def BDLI.dump (b : BDLI) : Option (List Nat) :=
  if b.lbli.length < 2 ^ 16 ∧ BDLI.SIZE + b.lbli.length * LBLI.SIZE < 2 ^ 32 then do
    let (ebs, cbs) ← dumpEntries b.lbli BDLI.SIZE (BDLI.SIZE + b.lbli.length * LBLI.SIZE)
    pure (BDLI.MAGIC ++ u16le 2 ++ u16le b.lbli.length ++ u32le 0 ++ u32le BDLI.SIZE ++
      u32le (BDLI.SIZE + b.lbli.length * LBLI.SIZE) ++ ebs ++ cbs)
  else none

/-! ## The text renderer (`__main__` loop over `lbli.chars`) -/

/-- One entry's rendering loop with the running `(vol, pitch)` state made
explicit; returns the accumulated string and the final state.  Mirrors the
source line by line: the closing/opening volume markers, the pitch marker with
its direction arrows, and — crucially — the *unconditional* `pitch = c.pitch`
update after the pitch check. -/
def renderGo : List LBLIChar → Nat → Nat → String × Nat × Nat
  | [], vol, pitch => ("", vol, pitch)
  | c :: rest, vol, pitch =>
      let sv : String :=
        if c.volume ≠ vol then
          (if vol ≠ 100 then "\x7b/volume\x7d" else "") ++
            (if c.volume ≠ 100 then "\x7bvolume=" ++ toString c.volume ++ "\x7d" else "")
        else ""
      let vol' := if c.volume ≠ vol then c.volume else vol
      let sp : String :=
        if !fEq c.pitch pitch && !fEq c.pitch f32zero then
          "[" ++ pyFloatRepr c.pitch ++ "]" ++
            (if fLt pitch c.pitch then "↑" else "") ++
            (if fLt c.pitch pitch then "↓" else "")
        else ""
      let rest' := renderGo rest vol' c.pitch
      (sv ++ sp ++ c.get_char ++ rest'.1, rest'.2)

/-- The full rendering of one entry: state starts at `vol = 100`,
`pitch = 1.0`. -/
def render (chars : List LBLIChar) : String := (renderGo chars 100 f32one).1

/-! ## Well-formedness (the domain on which `struct.pack` cannot fail) -/

/-- Fields fit the `u32` wire format. -/
def LBLIChar.WF (c : LBLIChar) : Prop :=
  c.value < 2 ^ 32 ∧ c.volume < 2 ^ 32 ∧ c.pitch < 2 ^ 32

instance (c : LBLIChar) : Decidable c.WF := by unfold LBLIChar.WF; infer_instance

/-- Hash and char count fit `u32`, and every record is well-formed. -/
def LBLI.WF (e : LBLI) : Prop :=
  e.label.hash < 2 ^ 32 ∧ e.chars.length < 2 ^ 32 ∧ ∀ c ∈ e.chars, c.WF

instance (e : LBLI) : Decidable e.WF := by unfold LBLI.WF; infer_instance

/-- Total character count of a container's entries. -/
def totalChars (es : List LBLI) : Nat := (es.map (fun e => e.chars.length)).sum

/-- Entry count fits `u16`, the whole encoded blob stays below `2 ^ 32` (so
every stored offset fits `u32`), and every entry is well-formed. -/
def BDLI.WF (b : BDLI) : Prop :=
  b.lbli.length < 2 ^ 16 ∧
    BDLI.SIZE + b.lbli.length * LBLI.SIZE + totalChars b.lbli * LBLIChar.SIZE < 2 ^ 32 ∧
    ∀ e ∈ b.lbli, e.WF

instance (b : BDLI) : Decidable b.WF := by unfold BDLI.WF; infer_instance

/-! ## Byte-slice reasoning -/

/-- The encoded form of one character record (what `LBLIChar.dump` emits on
its well-formed domain). -/
def charBytes (c : LBLIChar) : List Nat :=
  u32le c.value ++ u32le c.volume ++ u32le 0 ++ u32le c.pitch ++ u32le 0

/-- The encoded character pool of a record list, in order. -/
def charsBytes : List LBLIChar → List Nat
  | [] => []
  | c :: cs => charBytes c ++ charsBytes cs

/-- The encoded form of one entry-table slot with its stored relative chars
offset (what `LBLI.dump` emits on its well-formed domain). -/
def entrySlot (e : LBLI) (off : Nat) : List Nat :=
  LBLI.MAGIC ++ u32le e.chars.length ++ u32le off ++ u32le e.label.hash

/-- The encoded entry table, threading the same cursors as `dumpEntries`. -/
def tableBytes : List LBLI → Nat → Nat → List Nat
  | [], _, _ => []
  | e :: rest, lo, co =>
      entrySlot e (co - lo) ++
        tableBytes rest (lo + LBLI.SIZE) (co + e.chars.length * LBLIChar.SIZE)

/-- The encoded character pool of a container: entries' records in entry
order. -/
def poolBytes : List LBLI → List Nat
  | [] => []
  | e :: rest => charsBytes e.chars ++ poolBytes rest

@[simp] theorem u16le_length (n : Nat) : (u16le n).length = 2 := rfl

@[simp] theorem u32le_length (n : Nat) : (u32le n).length = 4 := rfl

@[simp] theorem charBytes_length (c : LBLIChar) : (charBytes c).length = 20 := rfl

@[simp] theorem charsBytes_length (cs : List LBLIChar) :
    (charsBytes cs).length = cs.length * 20 := by
  induction cs with
  | nil => rfl
  | cons c rest ih => simp [charsBytes, ih]; omega

@[simp] theorem entrySlot_length (e : LBLI) (off : Nat) : (entrySlot e off).length = 16 := rfl

@[simp] theorem BDLI_MAGIC_length : BDLI.MAGIC.length = 4 := rfl

@[simp] theorem LBLI_MAGIC_length : LBLI.MAGIC.length = 4 := rfl

@[simp] theorem tableBytes_length (es : List LBLI) :
    ∀ lo co, (tableBytes es lo co).length = es.length * 16 := by
  induction es with
  | nil => intro _ _; rfl
  | cons e rest ih => intro lo co; simp [tableBytes, ih]; omega

@[simp] theorem totalChars_nil : totalChars [] = 0 := rfl

@[simp] theorem totalChars_cons (e : LBLI) (rest : List LBLI) :
    totalChars (e :: rest) = e.chars.length + totalChars rest := by
  simp [totalChars]

@[simp] theorem poolBytes_length (es : List LBLI) :
    (poolBytes es).length = totalChars es * 20 := by
  induction es with
  | nil => rfl
  | cons e rest ih => simp [poolBytes, ih]; omega

/-- `seg` occurs verbatim in `blob` starting at byte position `pos`. -/
def sliceEq (blob : List Nat) (pos : Nat) (seg : List Nat) : Prop :=
  ∀ i, i < seg.length → byteAt blob (pos + i) = byteAt seg i

theorem byteAt_append_left (s t : List Nat) (i : Nat) (h : i < s.length) :
    byteAt (s ++ t) i = byteAt s i :=
  List.getD_append s t 0 i h

theorem byteAt_append_right (s t : List Nat) (i : Nat) :
    byteAt (s ++ t) (s.length + i) = byteAt t i := by
  unfold byteAt
  rw [List.getD_append_right s t 0 _ (by omega)]
  congr 1
  omega

theorem sliceEq_self (blob : List Nat) : sliceEq blob 0 blob := by
  intro i _
  simp [byteAt]

/-- Splitting a slice fact across an append; the split position is supplied
explicitly so call sites control its syntactic shape. -/
theorem sliceEq_split (blob : List Nat) (pos : Nat) (s t : List Nat) (pos' : Nat)
    (h : sliceEq blob pos (s ++ t)) (hp : pos' = pos + s.length) :
    sliceEq blob pos s ∧ sliceEq blob pos' t := by
  constructor
  · intro i hi
    have hx := h i (by simp; omega)
    rwa [byteAt_append_left s t i hi] at hx
  · intro i hi
    have hx := h (s.length + i) (by simp; omega)
    rw [show pos + (s.length + i) = pos + s.length + i by omega] at hx
    rw [byteAt_append_right s t i] at hx
    rwa [hp]

/-- A stored little-endian `u32` reads back as itself. -/
theorem readU32_of_sliceEq (blob : List Nat) (pos n : Nat) (hn : n < 2 ^ 32)
    (hs : sliceEq blob pos (u32le n)) : readU32 blob pos = n := by
  have h0 := hs 0 (by simp)
  have h1 := hs 1 (by simp)
  have h2 := hs 2 (by simp)
  have h3 := hs 3 (by simp)
  rw [Nat.add_zero] at h0
  rw [show byteAt (u32le n) 0 = n % 2 ^ 8 from rfl] at h0
  rw [show byteAt (u32le n) 1 = n / 2 ^ 8 % 2 ^ 8 from rfl] at h1
  rw [show byteAt (u32le n) 2 = n / 2 ^ 16 % 2 ^ 8 from rfl] at h2
  rw [show byteAt (u32le n) 3 = n / 2 ^ 24 % 2 ^ 8 from rfl] at h3
  unfold readU32
  rw [h0, h1, h2, h3]
  omega

/-- A stored little-endian `u16` reads back as itself. -/
theorem readU16_of_sliceEq (blob : List Nat) (pos n : Nat) (hn : n < 2 ^ 16)
    (hs : sliceEq blob pos (u16le n)) : readU16 blob pos = n := by
  have h0 := hs 0 (by simp)
  have h1 := hs 1 (by simp)
  rw [Nat.add_zero] at h0
  rw [show byteAt (u16le n) 0 = n % 2 ^ 8 from rfl] at h0
  rw [show byteAt (u16le n) 1 = n / 2 ^ 8 % 2 ^ 8 from rfl] at h1
  unfold readU16
  rw [h0, h1]
  omega

/-- A stored 4-byte tag reads back through `magicAt`. -/
theorem magicAt_of_sliceEq (blob : List Nat) (pos : Nat) (m : List Nat)
    (h4 : m.length = 4) (hs : sliceEq blob pos m) : magicAt blob pos = m := by
  rcases m with _ | ⟨a, _ | ⟨b, _ | ⟨c, _ | ⟨d, _ | ⟨x, t⟩⟩⟩⟩⟩ <;> simp at h4
  have h0 := hs 0 (by simp)
  have h1 := hs 1 (by simp)
  have h2 := hs 2 (by simp)
  have h3 := hs 3 (by simp)
  rw [Nat.add_zero] at h0
  rw [show byteAt [a, b, c, d] 0 = a from rfl] at h0
  rw [show byteAt [a, b, c, d] 1 = b from rfl] at h1
  rw [show byteAt [a, b, c, d] 2 = c from rfl] at h2
  rw [show byteAt [a, b, c, d] 3 = d from rfl] at h3
  unfold magicAt
  rw [h0, h1, h2, h3]

/-! ## Round-trip lemmas -/

/-- A well-formed record stored verbatim at `pos` loads back as itself. -/
theorem loadChar_of_sliceEq (blob : List Nat) (pos : Nat) (c : LBLIChar) (hwf : c.WF)
    (hs : sliceEq blob pos (charBytes c)) (hlen : pos + 20 ≤ blob.length) :
    LBLIChar.load blob pos = some c := by
  obtain ⟨hwf1, hwf2, hwf3⟩ := hwf
  unfold charBytes at hs
  simp only [List.append_assoc] at hs
  obtain ⟨h1, hs⟩ := sliceEq_split blob pos _ _ (pos + 4) hs (by simp)
  obtain ⟨h2, hs⟩ := sliceEq_split blob (pos + 4) _ _ (pos + 8) hs (by simp)
  obtain ⟨h3, hs⟩ := sliceEq_split blob (pos + 8) _ _ (pos + 12) hs (by simp)
  obtain ⟨h4, h5⟩ := sliceEq_split blob (pos + 12) _ _ (pos + 16) hs (by simp)
  have hv := readU32_of_sliceEq blob pos c.value hwf1 h1
  have hvol := readU32_of_sliceEq blob (pos + 4) c.volume hwf2 h2
  have hres := readU32_of_sliceEq blob (pos + 8) 0 (by norm_num) h3
  have hp := readU32_of_sliceEq blob (pos + 12) c.pitch hwf3 h4
  have hb : byteAt blob (pos + 16) = 0 := by
    have hx := h5 0 (by simp)
    rw [Nat.add_zero] at hx
    exact hx
  unfold LBLIChar.load LBLIChar.SIZE
  rw [if_pos hlen, if_pos ⟨hres, hb⟩, hv, hvol, hp]

/-- A record list stored verbatim at `pos` loads back as itself. -/
theorem loadChars_of_sliceEq (blob : List Nat) (cs : List LBLIChar) :
    ∀ pos, (∀ c ∈ cs, c.WF) → sliceEq blob pos (charsBytes cs) →
      pos + cs.length * 20 ≤ blob.length →
      loadChars blob pos cs.length = some cs := by
  induction cs with
  | nil => intro pos _ _ _; rfl
  | cons c rest ih =>
      intro pos hwf hs hlen
      simp only [charsBytes] at hs
      simp only [List.length_cons] at hlen
      obtain ⟨hs1, hs2⟩ := sliceEq_split blob pos _ _ (pos + 20) hs (by simp)
      have h1 := loadChar_of_sliceEq blob pos c (hwf c (by simp)) hs1 (by omega)
      have h2 := ih (pos + 20) (fun d hd => hwf d (by simp [hd])) hs2 (by omega)
      show loadChars blob pos (rest.length + 1) = some (c :: rest)
      simp [loadChars, LBLIChar.SIZE, h1, h2]

/-- `from_hash` preserves the hash regardless of the registry. -/
theorem from_hash_hash (reg : Registry) (h : Nat) :
    (LBLILabel.from_hash reg h).hash = h := by
  unfold LBLILabel.from_hash
  cases reg h <;> rfl

/-- An entry table stored verbatim at `base`, with its character pool at
`pool`, loads back as the same entries (labels re-resolved through the
registry, hashes preserved). -/
theorem loadEntries_of_sliceEq (reg : Registry) (blob : List Nat) (es : List LBLI) :
    ∀ base pool, (∀ e ∈ es, e.WF) →
      base + es.length * 16 ≤ pool →
      pool + totalChars es * 20 ≤ blob.length →
      pool + totalChars es * 20 < 2 ^ 32 →
      sliceEq blob base (tableBytes es base pool) →
      sliceEq blob pool (poolBytes es) →
      loadEntries reg blob base es.length =
        some (es.map fun e => ⟨LBLILabel.from_hash reg e.label.hash, e.chars⟩) := by
  induction es with
  | nil => intro base pool _ _ _ _ _ _; rfl
  | cons e rest ih =>
      intro base pool hwf hbp hlen hbound hst hsp
      obtain ⟨hh, hc, hcw⟩ := hwf e (by simp)
      have hwfr : ∀ x ∈ rest, x.WF := fun x hx => hwf x (by simp [hx])
      simp only [List.length_cons] at hbp
      simp only [totalChars_cons] at hlen hbound
      simp only [tableBytes, LBLI.SIZE, LBLIChar.SIZE] at hst
      simp only [poolBytes] at hsp
      obtain ⟨hslot, hst2⟩ := sliceEq_split blob base _ _ (base + 16) hst (by simp)
      obtain ⟨hpc, hsp2⟩ := sliceEq_split blob pool _ _ (pool + e.chars.length * 20) hsp
        (by simp)
      unfold entrySlot at hslot
      simp only [List.append_assoc] at hslot
      obtain ⟨hmagic, hslot⟩ := sliceEq_split blob base _ _ (base + 4) hslot
        (by simp [LBLI.MAGIC])
      obtain ⟨hcount, hslot⟩ := sliceEq_split blob (base + 4) _ _ (base + 8) hslot
        (by simp)
      obtain ⟨hoff, hhash⟩ := sliceEq_split blob (base + 8) _ _ (base + 12) hslot
        (by simp)
      have hm := magicAt_of_sliceEq blob base LBLI.MAGIC (by simp [LBLI.MAGIC]) hmagic
      have hcnt := readU32_of_sliceEq blob (base + 4) e.chars.length hc hcount
      have hofs := readU32_of_sliceEq blob (base + 8) (pool - base) (by omega) hoff
      have hhsh := readU32_of_sliceEq blob (base + 12) e.label.hash hh hhash
      have hchars := loadChars_of_sliceEq blob e.chars pool hcw hpc (by omega)
      have hload : LBLI.load reg blob base =
          some ⟨LBLILabel.from_hash reg e.label.hash, e.chars⟩ := by
        unfold LBLI.load LBLI.SIZE
        rw [if_pos (by omega : base + 16 ≤ blob.length), hm, if_pos rfl, hcnt, hofs, hhsh,
          show base + (pool - base) = pool by omega, hchars]
        rfl
      have hrest := ih (base + 16) (pool + e.chars.length * 20) hwfr (by omega) (by omega)
        (by omega) hst2 hsp2
      show loadEntries reg blob base (rest.length + 1) = _
      simp [loadEntries, LBLI.SIZE, hload, hrest]

/-- `dumpChars` on well-formed records emits exactly the pool bytes. -/
theorem dumpChars_eq (cs : List LBLIChar) (h : ∀ c ∈ cs, c.WF) :
    dumpChars cs = some (charsBytes cs) := by
  induction cs with
  | nil => rfl
  | cons c rest ih =>
      have hw := h c (by simp)
      unfold LBLIChar.WF at hw
      have hc : c.dump = some (charBytes c) := by
        rw [LBLIChar.dump, if_pos hw]
        rfl
      simp [dumpChars, hc, ih (fun d hd => h d (by simp [hd])), charsBytes]

/-- `dumpEntries` on well-formed entries with consistent cursors emits exactly
the entry-table and pool bytes. -/
theorem dumpEntries_eq (es : List LBLI) :
    ∀ lo co, (∀ e ∈ es, e.WF) → lo + es.length * 16 ≤ co →
      co + totalChars es * 20 < 2 ^ 32 →
      dumpEntries es lo co = some (tableBytes es lo co, poolBytes es) := by
  induction es with
  | nil => intro lo co _ _ _; rfl
  | cons e rest ih =>
      intro lo co hwf hbp hbound
      obtain ⟨hh, hc, hcw⟩ := hwf e (by simp)
      simp only [List.length_cons] at hbp
      simp only [totalChars_cons] at hbound
      have he : e.dump (co - lo) = some (entrySlot e (co - lo)) := by
        rw [LBLI.dump, if_pos ⟨hc, by omega, hh⟩]
        rfl
      have hcs := dumpChars_eq e.chars hcw
      have hrest := ih (lo + 16) (co + e.chars.length * 20)
        (fun x hx => hwf x (by simp [hx])) (by omega) (by omega)
      show dumpEntries (e :: rest) lo co = _
      simp [dumpEntries, LBLI.SIZE, LBLIChar.SIZE, he, hcs, hrest, tableBytes, poolBytes]

/-! ## The container round-trip claim -/

/-- C1: for every well-formed container, encoding succeeds and decoding the
encoded bytes yields a container structurally equal to the original: same
entry order, equal label hashes, and equal character records
(value/volume/pitch) in the same order (label *names* are re-resolved through
whatever registry decode runs under; the claim's structural equality is over
hashes and records). -/
theorem c1_round_trip (reg : Registry) (b : BDLI) (hwf : b.WF) :
    ∃ blob b2, BDLI.dump b = some blob ∧ BDLI.load reg blob 0 = some b2 ∧
      b2.lbli.map (fun e => (e.label.hash, e.chars)) =
        b.lbli.map (fun e => (e.label.hash, e.chars)) := by
  obtain ⟨h16, hsz, hew⟩ := hwf
  unfold BDLI.SIZE LBLI.SIZE LBLIChar.SIZE at hsz
  have hde := dumpEntries_eq b.lbli 20 (20 + b.lbli.length * 16) hew (by omega) (by omega)
  have hdump : BDLI.dump b =
      some (BDLI.MAGIC ++ (u16le 2 ++ (u16le b.lbli.length ++ (u32le 0 ++ (u32le 20 ++
        (u32le (20 + b.lbli.length * 16) ++
          (tableBytes b.lbli 20 (20 + b.lbli.length * 16) ++ poolBytes b.lbli))))))) := by
    unfold BDLI.dump BDLI.SIZE LBLI.SIZE
    rw [if_pos ⟨h16, by omega⟩, hde]
    simp [List.append_assoc]
  refine ⟨_, BDLI.mk (b.lbli.map fun e => ⟨LBLILabel.from_hash reg e.label.hash, e.chars⟩),
    hdump, ?_, ?_⟩
  · have hself := sliceEq_self (BDLI.MAGIC ++ (u16le 2 ++ (u16le b.lbli.length ++ (u32le 0 ++
      (u32le 20 ++ (u32le (20 + b.lbli.length * 16) ++
        (tableBytes b.lbli 20 (20 + b.lbli.length * 16) ++ poolBytes b.lbli)))))))
    obtain ⟨hmg, hself⟩ := sliceEq_split _ 0 _ _ 4 hself (by simp)
    obtain ⟨hver, hself⟩ := sliceEq_split _ 4 _ _ 6 hself (by simp)
    obtain ⟨hcnt, hself⟩ := sliceEq_split _ 6 _ _ 8 hself (by simp)
    obtain ⟨hres, hself⟩ := sliceEq_split _ 8 _ _ 12 hself (by simp)
    obtain ⟨hlo, hself⟩ := sliceEq_split _ 12 _ _ 16 hself (by simp)
    obtain ⟨hco, hself⟩ := sliceEq_split _ 16 _ _ 20 hself (by simp)
    obtain ⟨htab, hpool⟩ := sliceEq_split _ 20 _ _ (20 + b.lbli.length * 16) hself (by simp)
    have hm := magicAt_of_sliceEq _ 0 BDLI.MAGIC (by simp [BDLI.MAGIC]) hmg
    have hv2 := readU16_of_sliceEq _ 4 2 (by norm_num) hver
    have hn := readU16_of_sliceEq _ 6 b.lbli.length h16 hcnt
    have h0 := readU32_of_sliceEq _ 8 0 (by norm_num) hres
    have hl := readU32_of_sliceEq _ 12 20 (by norm_num) hlo
    have hent := loadEntries_of_sliceEq reg _ b.lbli 20 (20 + b.lbli.length * 16) hew
      (by omega) (by simp; omega) (by omega) htab hpool
    unfold BDLI.load BDLI.SIZE
    simp only [Nat.zero_add]
    rw [if_pos (by simp; omega), hm, hv2, h0, if_pos ⟨rfl, rfl, rfl⟩, hl, hn, hent]
    rfl
  · simp only [List.map_map]
    refine List.map_congr_left ?_
    intro e _
    simp [Function.comp, from_hash_hash]

/-- Witness for C1: a concrete two-entry container (one entry with two
records, one empty) round-trips. -/
theorem c1_round_trip_witness :
    ∃ blob b2,
      BDLI.dump ⟨[⟨⟨0xDEADBEEF, none⟩, [⟨0x01, 100, 0x3F800000⟩, ⟨0xa3, 50, 0x40000000⟩]⟩,
        ⟨⟨5, none⟩, []⟩]⟩ = some blob ∧
      BDLI.load emptyRegistry blob 0 = some b2 ∧
      b2.lbli.map (fun e => (e.label.hash, e.chars)) =
        ([⟨⟨0xDEADBEEF, none⟩, [⟨0x01, 100, 0x3F800000⟩, ⟨0xa3, 50, 0x40000000⟩]⟩,
          ⟨⟨5, none⟩, []⟩] : List LBLI).map (fun e => (e.label.hash, e.chars)) :=
  c1_round_trip emptyRegistry
    ⟨[⟨⟨0xDEADBEEF, none⟩, [⟨0x01, 100, 0x3F800000⟩, ⟨0xa3, 50, 0x40000000⟩]⟩,
      ⟨⟨5, none⟩, []⟩]⟩ (by decide)

/-! ## Decode failure claims -/

/-- If any record of the run fails to load, the whole record loop fails. -/
theorem loadChars_fail (blob : List Nat) :
    ∀ n base i, i < n → LBLIChar.load blob (base + 20 * i) = none →
      loadChars blob base n = none := by
  intro n
  induction n with
  | zero => intro base i hi _; omega
  | succ m ih =>
      intro base i hi hfail
      show loadChars blob base (m + 1) = none
      cases i with
      | zero =>
          rw [Nat.mul_zero, Nat.add_zero] at hfail
          simp [loadChars, hfail]
      | succ j =>
          rw [show base + 20 * (j + 1) = base + 20 + 20 * j by omega] at hfail
          have h2 := ih (base + 20) j (by omega) hfail
          cases hl : LBLIChar.load blob base <;>
            simp [loadChars, LBLIChar.SIZE, hl, h2]

/-- If any entry of the table fails to load, the whole entry loop fails. -/
theorem loadEntries_fail (reg : Registry) (blob : List Nat) :
    ∀ n base i, i < n → LBLI.load reg blob (base + 16 * i) = none →
      loadEntries reg blob base n = none := by
  intro n
  induction n with
  | zero => intro base i hi _; omega
  | succ m ih =>
      intro base i hi hfail
      show loadEntries reg blob base (m + 1) = none
      cases i with
      | zero =>
          rw [Nat.mul_zero, Nat.add_zero] at hfail
          simp [loadEntries, hfail]
      | succ j =>
          rw [show base + 16 * (j + 1) = base + 16 + 16 * j by omega] at hfail
          have h2 := ih (base + 16) j (by omega) hfail
          cases hl : LBLI.load reg blob base <;>
            simp [loadEntries, LBLI.SIZE, hl, h2]

/-- The entry loop, when it succeeds, returns exactly as many entries as were
declared. -/
theorem loadEntries_length (reg : Registry) (blob : List Nat) :
    ∀ n base es, loadEntries reg blob base n = some es → es.length = n := by
  intro n
  induction n with
  | zero =>
      intro base es h
      simp only [loadEntries] at h
      cases h
      rfl
  | succ m ih =>
      intro base es h
      simp only [loadEntries] at h
      cases he : LBLI.load reg blob base with
      | none => rw [he] at h; simp at h
      | some e =>
          rw [he] at h
          cases hr : loadEntries reg blob (base + LBLI.SIZE) m with
          | none => rw [hr] at h; simp at h
          | some es2 =>
              rw [hr] at h
              simp at h
              subst h
              simp [ih (base + LBLI.SIZE) es2 hr]

/-- C4: container decode fails — returning nothing, never a partial value —
whenever the blob is shorter than the 20-byte header region, the magic is not
`BDLI`, the version is not 2, or the reserved u32 is nonzero; an entry that is
truncated or lacks the `LBLI` magic fails; a failing entry at any declared
index fails the container, and a failing record at any declared index fails
its entry; and on success the container holds exactly the declared number of
entries. -/
theorem c4_decode_failure (reg : Registry) (blob : List Nat) (off : Nat) :
    (blob.length < off + 0x14 → BDLI.load reg blob off = none)
    ∧ (magicAt blob off ≠ BDLI.MAGIC → BDLI.load reg blob off = none)
    ∧ (readU16 blob (off + 4) ≠ 2 → BDLI.load reg blob off = none)
    ∧ (readU32 blob (off + 8) ≠ 0 → BDLI.load reg blob off = none)
    ∧ (∀ i, i < readU16 blob (off + 6) →
        LBLI.load reg blob (off + readU32 blob (off + 12) + 16 * i) = none →
        BDLI.load reg blob off = none)
    ∧ (blob.length < off + 0x10 → LBLI.load reg blob off = none)
    ∧ (magicAt blob off ≠ LBLI.MAGIC → LBLI.load reg blob off = none)
    ∧ (∀ j, j < readU32 blob (off + 4) →
        LBLIChar.load blob (off + readU32 blob (off + 8) + 20 * j) = none →
        LBLI.load reg blob off = none)
    ∧ (∀ b2, BDLI.load reg blob off = some b2 → b2.lbli.length = readU16 blob (off + 6)) := by
  refine ⟨?_, ?_, ?_, ?_, ?_, ?_, ?_, ?_, ?_⟩
  · intro hshort
    unfold BDLI.load BDLI.SIZE
    rw [if_neg (by omega)]
  · intro hm
    unfold BDLI.load
    split_ifs with h1 h2
    · exact absurd h2.1 hm
    · rfl
    · rfl
  · intro hv
    unfold BDLI.load
    split_ifs with h1 h2
    · exact absurd h2.2.1 hv
    · rfl
    · rfl
  · intro hr
    unfold BDLI.load
    split_ifs with h1 h2
    · exact absurd h2.2.2 hr
    · rfl
    · rfl
  · intro i hi hfail
    unfold BDLI.load
    split_ifs with h1 h2
    · rw [loadEntries_fail reg blob (readU16 blob (off + 6))
        (off + readU32 blob (off + 12)) i hi hfail]
      rfl
    · rfl
    · rfl
  · intro hshort
    unfold LBLI.load LBLI.SIZE
    rw [if_neg (by omega)]
  · intro hm
    unfold LBLI.load
    by_cases h1 : off + LBLI.SIZE ≤ blob.length
    · rw [if_pos h1, if_neg hm]
    · rw [if_neg h1]
  · intro j hj hfail
    unfold LBLI.load
    by_cases h1 : off + LBLI.SIZE ≤ blob.length
    · by_cases h2 : magicAt blob off = LBLI.MAGIC
      · rw [if_pos h1, if_pos h2, loadChars_fail blob (readU32 blob (off + 4))
          (off + readU32 blob (off + 8)) j hj hfail]
        rfl
      · rw [if_pos h1, if_neg h2]
    · rw [if_neg h1]
  · intro b2 hsome
    unfold BDLI.load at hsome
    by_cases h1 : off + BDLI.SIZE ≤ blob.length
    · rw [if_pos h1] at hsome
      by_cases h2 : magicAt blob off = BDLI.MAGIC ∧ readU16 blob (off + 4) = 2 ∧
          readU32 blob (off + 8) = 0
      · rw [if_pos h2] at hsome
        rw [Option.map_eq_some'] at hsome
        obtain ⟨es, hent, hmk⟩ := hsome
        rw [← hmk]
        exact loadEntries_length reg blob _ _ es hent
      · rw [if_neg h2] at hsome
        simp at hsome
    · rw [if_neg h1] at hsome
      simp at hsome

/-- Witness for C4: the empty blob fails the header length check. -/
theorem c4_decode_failure_witness : BDLI.load emptyRegistry [] 0 = none :=
  (c4_decode_failure emptyRegistry [] 0).1 (by decide)

/-! ## The Glyph Map claims -/

/-- The Glyph Map as the specification's range table states it, with the fixed
glyphs written as string literals; compared against the code's `get_char`. -/
def glyphSpec (v : Nat) : String :=
  if 0x01 ≤ v ∧ v ≤ 0x56 then String.singleton (Char.ofNat (0x3040 + v))
  else if 0x57 ≤ v ∧ v ≤ 0x60 then String.singleton (Char.ofNat (0x30 + (v - 0x57)))
  else if 0x61 ≤ v ∧ v ≤ 0x7a then String.singleton (Char.ofNat v)
  else if v = 0x9d then "ー"
  else if v = 0x9e then "…"
  else if v = 0x9f then "[Monology]"
  else if v = 0xa0 then "？"
  else if v = 0xa1 then "！"
  else if v = 0xa2 then "、"
  else if v = 0xa3 then "。"
  else if v = 0xa4 then "　"
  else if v = 0xa5 then "・"
  else if v = 0xa6 then "\n"
  else if v = 0xa7 then "\n\n"
  else if v = 0xda ∨ v = 0xde ∨ v = 0x10d then ""
  else "[" ++ pyHexPad 3 v ++ "]"

set_option maxRecDepth 10000 in
set_option maxHeartbeats 2000000 in
/-- C6: the Glyph Map is total and deterministic on character values: for every
value in `0x00`–`0x10D` it returns the string the range table defines
(syllabary block, digits, ASCII passthrough, the fixed punctuation/control
strings, the empty string for `0xDA`/`0xDE`/`0x10D`, and the 3-digit uppercase
hex placeholder otherwise), and for the out-of-range value `0x200` it returns
exactly `"[200]"`. -/
theorem c6_glyph_map :
    (∀ v : Fin 0x10E, LBLIChar.get_char ⟨v.val, 100, f32one⟩ = glyphSpec v.val)
    ∧ LBLIChar.get_char ⟨0x200, 100, f32one⟩ = "[200]" := by decide

/-! ## Renderer claims -/

/-- C3: on volumes `[100, 50, 100]` (constant pitch), the renderer emits
exactly one opening volume marker carrying `50` and one closing volume marker,
in that order, and no further marker for the final return to the baseline: the
output is exactly glyph, opening marker, glyph, closing marker, glyph. -/
theorem c3_volume_run :
    render [⟨0x61, 100, f32one⟩, ⟨0x62, 50, f32one⟩, ⟨0x63, 100, f32one⟩] =
      "a\x7bvolume=50\x7db\x7b/volume\x7dc" := by decide

/-- C2, counterexample: after a record sets the running pitch to `2.0`, a
record with pitch `0.0` emits no marker but the running pitch baseline becomes
`0.0` (not `2.0`: the `pitch = c.pitch` update is unconditional), so a later
record with pitch `2.0` emits a pitch marker again — the rendering of pitches
`[2.0, 0.0, 2.0]` carries two `[2.0]↑` markers, where the claim says the
second must not appear. -/
theorem c2_pitch_counterexample :
    (renderGo [⟨0x61, 100, f32two⟩, ⟨0x62, 100, f32zero⟩] 100 f32one).2.2 = f32zero
    ∧ f32zero ≠ f32two
    ∧ render [⟨0x61, 100, f32two⟩, ⟨0x62, 100, f32zero⟩, ⟨0x63, 100, f32two⟩] =
        "[2.0]↑a" ++ "b" ++ "[2.0]↑c" := by decide

/-- C2, amended: on pitches `[1.0, 2.0, 1.0]` (volumes all `100`) a pitch
marker followed by an up-arrow glyph is emitted at the first change and a
pitch marker followed by a down-arrow glyph at the second; and for a record
with pitch `0.0` immediately following a record that set the running pitch to
`2.0`, no pitch marker is emitted but the running pitch baseline becomes `0.0`
(so a later record with pitch `2.0` emits a pitch marker again). -/
theorem c2_pitch_direction_amended :
    render [⟨0x61, 100, f32one⟩, ⟨0x62, 100, f32two⟩, ⟨0x63, 100, f32one⟩] =
      "a" ++ "[2.0]↑" ++ "b" ++ "[1.0]↓" ++ "c"
    ∧ render [⟨0x61, 100, f32two⟩, ⟨0x62, 100, f32zero⟩, ⟨0x63, 100, f32two⟩] =
        "[2.0]↑a" ++ "b" ++ "[2.0]↑c"
    ∧ (renderGo [⟨0x61, 100, f32two⟩, ⟨0x62, 100, f32zero⟩] 100 f32one).2.2 = f32zero := by
  decide

/-- The rendering loop at the default state `(100, 1.0)` over records all at
`volume = 100`, `pitch = 1.0` emits no markers. -/
theorem renderGo_vol100_pitch_one (cs : List LBLIChar) :
    (∀ c ∈ cs, c.volume = 100) → (∀ c ∈ cs, c.pitch = f32one) →
      (renderGo cs 100 f32one).1 = (cs.map LBLIChar.get_char).foldr (· ++ ·) "" := by
  induction cs with
  | nil => intro _ _; rfl
  | cons c rest ih =>
      intro hv hp
      have hcv : c.volume = 100 := hv c (by simp)
      have hcp : c.pitch = f32one := hp c (by simp)
      have hcond : (!fEq f32one f32one && !fEq f32one f32zero) = false := by decide
      simp only [renderGo, hcv, hcp, hcond, ne_eq, not_true_eq_false, if_false, ite_false,
        if_neg, List.map_cons, List.foldr_cons]
      rw [ih (fun d hd => hv d (by simp [hd])) (fun d hd => hp d (by simp [hd]))]
      simp

/-- The rendering loop over records all at `volume = 100`, `pitch = 0.0` emits
no markers, from any running pitch state: the `c.pitch != 0` conjunct blocks
the marker and the state update then pins the running pitch at `0.0`. -/
theorem renderGo_vol100_pitch_zero (cs : List LBLIChar) :
    ∀ p, (∀ c ∈ cs, c.volume = 100) → (∀ c ∈ cs, c.pitch = f32zero) →
      (renderGo cs 100 p).1 = (cs.map LBLIChar.get_char).foldr (· ++ ·) "" := by
  induction cs with
  | nil => intro _ _ _; rfl
  | cons c rest ih =>
      intro p hv hp
      have hcv : c.volume = 100 := hv c (by simp)
      have hcp : c.pitch = f32zero := hp c (by simp)
      have hz : fEq f32zero f32zero = true := by decide
      simp only [renderGo, hcv, hcp, hz, Bool.not_true, Bool.and_false, ne_eq,
        not_true_eq_false, if_false, ite_false, List.map_cons, List.foldr_cons]
      rw [ih f32zero (fun d hd => hv d (by simp [hd])) (fun d hd => hp d (by simp [hd]))]
      simp

/-- C8: a record sequence entirely at `volume = 100` and `pitch = 1.0`, or
entirely at `volume = 100` and `pitch = 0.0`, renders with no volume and no
pitch markers: the output is exactly the concatenation of the Glyph Map
results for the records' values in order. -/
theorem c8_renderer_defaults (cs : List LBLIChar) (hv : ∀ c ∈ cs, c.volume = 100) :
    ((∀ c ∈ cs, c.pitch = f32one) →
        render cs = (cs.map LBLIChar.get_char).foldr (· ++ ·) "")
    ∧ ((∀ c ∈ cs, c.pitch = f32zero) →
        render cs = (cs.map LBLIChar.get_char).foldr (· ++ ·) "") :=
  ⟨fun hp => renderGo_vol100_pitch_one cs hv hp,
   fun hp => renderGo_vol100_pitch_zero cs f32one hv hp⟩

/-- Witness for C8 at a concrete two-record sequence. -/
theorem c8_renderer_defaults_witness :
    render [⟨0x01, 100, f32one⟩, ⟨0xa3, 100, f32one⟩] =
      ([⟨0x01, 100, f32one⟩, ⟨0xa3, 100, f32one⟩].map LBLIChar.get_char).foldr (· ++ ·) "" :=
  (c8_renderer_defaults [⟨0x01, 100, f32one⟩, ⟨0xa3, 100, f32one⟩] (by decide)).1 (by decide)

/-! ## Label resolution claims -/

/-- C7: registering hash `H` with name `"Foo"` then resolving `H` displays
exactly `"Foo"`; resolving an unregistered hash yields a Label with no name
displayed as an underscore followed by the zero-padded 8-digit uppercase hex
form of the hash; in particular unregistered `0xDEADBEEF` displays exactly
`"_DEADBEEF"`. -/
theorem c7_label_resolution (H : Nat) (reg reg2 : Registry) (h2 : reg2 H = none) :
    (LBLILabel.from_hash (registerName reg H "Foo") H).str = "Foo"
    ∧ (LBLILabel.from_hash reg2 H).name = none
    ∧ (LBLILabel.from_hash reg2 H).str = "_" ++ pyHexPad 8 H
    ∧ (LBLILabel.from_hash emptyRegistry 0xDEADBEEF).str = "_DEADBEEF" := by
  refine ⟨?_, ?_, ?_, by decide⟩
  · simp [LBLILabel.from_hash, registerName, LBLILabel.str]
  · simp [LBLILabel.from_hash, h2]
  · simp [LBLILabel.from_hash, h2, LBLILabel.str]

/-- Witness for C7 with the empty registry and hash `0xDEADBEEF`. -/
theorem c7_label_resolution_witness :
    (LBLILabel.from_hash (registerName emptyRegistry 0xDEADBEEF "Foo") 0xDEADBEEF).str = "Foo"
    ∧ (LBLILabel.from_hash emptyRegistry 0xDEADBEEF).name = none
    ∧ (LBLILabel.from_hash emptyRegistry 0xDEADBEEF).str = "_" ++ pyHexPad 8 0xDEADBEEF
    ∧ (LBLILabel.from_hash emptyRegistry 0xDEADBEEF).str = "_DEADBEEF" :=
  c7_label_resolution 0xDEADBEEF emptyRegistry emptyRegistry rfl

/-- C9: registering a hash with the empty string as its name yields, on
resolution, a Label carrying `name = some ""` whose display form is still the
underscore-plus-hex form, not the empty string: the display logic tests the
name's truthiness, not whether a name was registered. -/
theorem c9_empty_name (H : Nat) (reg : Registry) :
    (LBLILabel.from_hash (registerName reg H "") H).name = some ""
    ∧ (LBLILabel.from_hash (registerName reg H "") H).str = "_" ++ pyHexPad 8 H
    ∧ (LBLILabel.from_hash (registerName reg H "") H).str ≠ "" := by
  have hs : (LBLILabel.from_hash (registerName reg H "") H).str = "_" ++ pyHexPad 8 H := by
    simp [LBLILabel.from_hash, registerName, LBLILabel.str]
  refine ⟨by simp [LBLILabel.from_hash, registerName], hs, ?_⟩
  rw [hs]
  intro hEq
  have hlen := congrArg String.length hEq
  rw [String.length_append, show ("_" : String).length = 1 from rfl,
    show ("" : String).length = 0 from rfl] at hlen
  omega

/-- Witness for C9 at hash `0xDEADBEEF` over the empty registry. -/
theorem c9_empty_name_witness :
    (LBLILabel.from_hash (registerName emptyRegistry 0xDEADBEEF "") 0xDEADBEEF).name = some ""
    ∧ (LBLILabel.from_hash (registerName emptyRegistry 0xDEADBEEF "") 0xDEADBEEF).str =
        "_" ++ pyHexPad 8 0xDEADBEEF
    ∧ (LBLILabel.from_hash (registerName emptyRegistry 0xDEADBEEF "") 0xDEADBEEF).str ≠ "" :=
  c9_empty_name 0xDEADBEEF emptyRegistry

/-! ## Character record codec claims -/

/-- C5: `dump` produces exactly 20 bytes — little-endian `u32 value`,
`u32 volume`, four zero bytes, the f32 pitch pattern, four zero bytes — while
`load` succeeds precisely when the blob reaches `offset + 20`, the reserved
`u32` at `offset + 8` is zero and the single reserved byte at `offset + 16` is
zero, returning the `value`/`volume`/`pitch` fields it read; the trailing
three bytes of the 20-byte region take no part in the success condition. -/
theorem c5_char_codec (c : LBLIChar) (blob : List Nat) (off : Nat) :
    (c.WF →
      LBLIChar.dump c =
          some (u32le c.value ++ u32le c.volume ++ [0, 0, 0, 0] ++ u32le c.pitch ++ [0, 0, 0, 0])
        ∧ (u32le c.value ++ u32le c.volume ++ [0, 0, 0, 0] ++ u32le c.pitch ++
            [0, 0, 0, 0]).length = 20)
    ∧ (∀ r, LBLIChar.load blob off = some r ↔
        off + 20 ≤ blob.length ∧ readU32 blob (off + 8) = 0 ∧ byteAt blob (off + 16) = 0 ∧
          r = ⟨readU32 blob off, readU32 blob (off + 4), readU32 blob (off + 12)⟩) := by
  constructor
  · intro hwf
    refine ⟨?_, by simp [u32le]⟩
    unfold LBLIChar.WF at hwf
    rw [LBLIChar.dump, if_pos hwf]
    rfl
  · intro r
    rw [LBLIChar.load]
    show (if off + 20 ≤ blob.length then _ else none) = some r ↔ _
    split_ifs with h1 h2
    · simp only [Option.some.injEq]
      constructor
      · rintro rfl; exact ⟨h1, h2.1, h2.2, rfl⟩
      · rintro ⟨-, -, -, rfl⟩; rfl
    · simp only [false_iff]
      intro hx
      exact h2 ⟨hx.2.1, hx.2.2.1⟩
    · simp only [false_iff]
      intro hx
      exact h1 hx.1

/-- Witness for C5: a concrete record's dump and a concrete successful load. -/
theorem c5_char_codec_witness :
    LBLIChar.dump ⟨1, 2, 3⟩ =
      some (u32le 1 ++ u32le 2 ++ [0, 0, 0, 0] ++ u32le 3 ++ [0, 0, 0, 0]) :=
  ((c5_char_codec ⟨1, 2, 3⟩ [] 0).1 (by decide)).1

/-- C10: the character record loader never reads the trailing three bytes of
its 20-byte region: blobs of equal length agreeing on bytes
`offset .. offset + 16` load identically. -/
theorem c10_ignores_tail_bytes (b1 b2 : List Nat) (off : Nat)
    (hlen : b1.length = b2.length)
    (hagree : ∀ i, i < 17 → byteAt b1 (off + i) = byteAt b2 (off + i)) :
    LBLIChar.load b1 off = LBLIChar.load b2 off := by
  have hb : ∀ j, off ≤ j → j ≤ off + 16 → byteAt b1 j = byteAt b2 j := by
    intro j hj1 hj2
    have h3 := hagree (j - off) (by omega)
    rwa [Nat.add_sub_cancel' hj1] at h3
  have e1 : readU32 b1 off = readU32 b2 off := by
    unfold readU32
    rw [hb off (by omega) (by omega), hb (off + 1) (by omega) (by omega),
      hb (off + 2) (by omega) (by omega), hb (off + 3) (by omega) (by omega)]
  have e2 : readU32 b1 (off + 4) = readU32 b2 (off + 4) := by
    unfold readU32
    rw [hb (off + 4) (by omega) (by omega), hb (off + 4 + 1) (by omega) (by omega),
      hb (off + 4 + 2) (by omega) (by omega), hb (off + 4 + 3) (by omega) (by omega)]
  have e3 : readU32 b1 (off + 8) = readU32 b2 (off + 8) := by
    unfold readU32
    rw [hb (off + 8) (by omega) (by omega), hb (off + 8 + 1) (by omega) (by omega),
      hb (off + 8 + 2) (by omega) (by omega), hb (off + 8 + 3) (by omega) (by omega)]
  have e4 : readU32 b1 (off + 12) = readU32 b2 (off + 12) := by
    unfold readU32
    rw [hb (off + 12) (by omega) (by omega), hb (off + 12 + 1) (by omega) (by omega),
      hb (off + 12 + 2) (by omega) (by omega), hb (off + 12 + 3) (by omega) (by omega)]
  have e5 : byteAt b1 (off + 16) = byteAt b2 (off + 16) :=
    hb (off + 16) (by omega) (by omega)
  unfold LBLIChar.load
  rw [hlen, e1, e2, e3, e4, e5]

/-- Witness for C10: two 20-byte blobs differing only (and nonzero) in the
final three bytes load identically. -/
theorem c10_ignores_tail_bytes_witness :
    LBLIChar.load (List.replicate 20 0) 0 =
      LBLIChar.load (List.replicate 17 0 ++ [7, 8, 9]) 0 :=
  c10_ignores_tail_bytes (List.replicate 20 0) (List.replicate 17 0 ++ [7, 8, 9]) 0
    (by decide) (by decide)

end BdliSpec
